import Mathlib

/-!
Verification of the task-tracking chat bot (`bot.py`).

The development shallowly embeds the bot's data model and the handlers the
specification talks about:

* `User` / `Task` mirror the two database tables (`users`, `tasks`).
* Timestamps are modelled as minutes since an arbitrary epoch (`Int`); this is
  an order- and difference-faithful image of Python `datetime` at the minute
  precision the bot stores (`"%Y-%m-%d %H:%M"`), with
  `timedelta(days=1) = 1440`, `timedelta(hours=1) = 60`,
  and `timedelta.days = fdiv by 1440` (Python floors).
* The recursive organisation-walks `get_user_subordinates` and
  `is_user_subordinate` perform unguarded recursion in Python; they are
  embedded with an explicit fuel argument, `none` meaning that the Python
  recursion has not terminated within that depth (so `= none` for every fuel
  means the Python call never returns; in CPython it dies with
  `RecursionError`).
* Message delivery (`bot.send_message`) can fail; handlers take a `sendOk`
  flag selecting whether the `try` block around the send succeeds, and
  return the list of messages actually delivered.
-/

namespace TaskBot

/-- A row of the `users` table: telegram id (primary key), name, surname,
role (`"director"`, `"chief"` or `"manager"`), optional superior link
`chief_id`, optional department label. -/
structure User where
  tg_id : String
  name : String
  surname : String
  role : String
  chief_id : Option String
  department : Option String
  deriving Repr, DecidableEq

/-- A row of the `tasks` table: serial id, creator (`chief_id` column),
assignee, text, deadline (minutes since epoch), status (`"new"` / `"done"`). -/
structure Task where
  id : Nat
  chief_id : String
  assignee_id : String
  text : String
  deadline : Int
  status : String
  deriving Repr, DecidableEq

/-- The task table together with the next value of the `SERIAL` id column. -/
structure TaskStore where
  tasks : List Task
  nextId : Nat
  deriving Repr, DecidableEq

/-- Database upsert of a user row (`INSERT ... ON CONFLICT (tg_id) DO UPDATE`):
a row with the same key is updated in place, otherwise the row is appended
(`load_users` orders by `created_at`, i.e. insertion order). -/
def save_user (nu : User) (users : List User) : List User :=
  if users.any (fun v => v.tg_id == nu.tg_id) then
    users.map (fun v => if v.tg_id == nu.tg_id then nu else v)
  else
    users ++ [nu]

/-- Insertion branch of `save_task` for a task without an id: the row gets the
next serial id and is appended. -/
def save_task_new (chief_id assignee_id text : String) (deadline : Int)
    (st : TaskStore) : Nat × TaskStore :=
  (st.nextId,
   { tasks := st.tasks ++ [⟨st.nextId, chief_id, assignee_id, text, deadline, "new"⟩],
     nextId := st.nextId + 1 })

/-- Update branch of `save_task` for a task that already has an id
(`UPDATE tasks SET ... WHERE id = %s`). -/
def save_task_update (t : Task) (st : TaskStore) : TaskStore :=
  { st with tasks := st.tasks.map (fun u => if u.id == t.id then t else u) }

/-- One armed reminder timer: fire time, role tag (`"assignee"` / `"chief"`)
and recipient chat id. -/
structure Reminder where
  time : Int
  role : String
  chat_id : String
  deriving Repr, DecidableEq

/-- The three candidate fire times built by `schedule_deadline_reminders`:
deadline minus one day and minus one hour to the assignee, deadline plus one
hour to the creator. -/
def reminderCandidates (chief_id assignee_id : String) (deadline : Int) :
    List Reminder :=
  [⟨deadline - 1440, "assignee", assignee_id⟩,
   ⟨deadline - 60, "assignee", assignee_id⟩,
   ⟨deadline + 60, "chief", chief_id⟩]

/-- `schedule_deadline_reminders`: arm a `run_once` timer for every candidate
whose fire time is strictly in the future (`reminder_time > now`); the others
are skipped. -/
def schedule_deadline_reminders (now : Int) (chief_id assignee_id : String)
    (deadline : Int) : List Reminder :=
  (reminderCandidates chief_id assignee_id deadline).filter
    (fun r => decide (now < r.time))

/-- The job payload stored with an armed reminder timer. -/
structure JobData where
  task_id : String
  chat_id : String
  task_text : String
  deadline_display : String
  role : String
  deriving Repr, DecidableEq

/-- A message the reminder handler may send. -/
inductive ReminderMsg
  | remind (chat_id : String) (task_text : String)
  | overdue (chat_id : String) (task_text : String)
  deriving Repr, DecidableEq

/-- `send_deadline_reminder`: re-fetch the task by id; if it is gone or already
`"done"`, return without sending; otherwise send the reminder (to the
assignee, with a done button) or the overdue notice (to the creator). -/
def send_deadline_reminder (d : JobData) (tasks : List Task) :
    Option ReminderMsg :=
  match tasks.find? (fun t => toString t.id == d.task_id) with
  | none => none
  | some t =>
    if t.status == "done" then none
    else if d.role == "assignee" then some (.remind d.chat_id d.task_text)
    else some (.overdue d.chat_id d.task_text)

/-- Result of the `mark_done` callback: the store afterwards, the completion
notifications delivered to the creator, and the edited reply text. -/
structure MarkDoneResult where
  store : TaskStore
  notifs : List String
  reply : String
  deriving Repr, DecidableEq

/-- `mark_done`: look the task up by the id from the callback data; if absent,
reply "not found" and change nothing; otherwise set its status to `"done"`,
save, and try to notify the creator (the send is inside `try`/`except`, so a
failed send only loses the message). There is no check that the task was not
already done. -/
def mark_done (task_id : String) (st : TaskStore) (sendOk : Bool) :
    MarkDoneResult :=
  match st.tasks.find? (fun t => toString t.id == task_id) with
  | none => ⟨st, [], "task not found"⟩
  | some t =>
    let td : Task := { t with status := "done" }
    ⟨save_task_update td st, if sendOk then [td.chief_id] else [], "task done"⟩

/-- Which conversation state the task-creation wizard returns next. -/
inductive NextState
  | promptTime
  | promptDate
  | endConv
  deriving Repr, DecidableEq

/-- Result of the deadline-time wizard step: the next conversation state, the
task store afterwards, and the new-task notifications delivered. -/
structure CreateResult where
  next : NextState
  store : TaskStore
  notifs : List String
  deriving Repr, DecidableEq

/-- The per-session wizard data accumulated before the deadline-time step. -/
structure UserData where
  task_text : Option String
  assignee_id : Option String
  deadline_date : Option Int
  deriving Repr, DecidableEq

/-- Python falsiness of an optional string (`not x`): missing or empty. -/
def falsyStr : Option String → Bool
  | none => true
  | some s => s == ""

/-- `deadline_time_handler` from the point where `int(...)` has parsed the two
time components (a parse failure re-prompts the time step and touches
nothing): range-check hours and minutes (re-prompt time), combine with the
stored date into `deadline_dt`, reject `deadline_dt <= now` by re-prompting
the date step, then persist the task with status `"new"` and try to send it
to the assignee (the send is inside `try`/`except`). `ud.deadline_date` is
midnight of the chosen date in minutes. -/
def deadline_time_handler (now hours minutes : Int) (tg_id : String)
    (ud : UserData) (st : TaskStore) (sendOk : Bool) : CreateResult :=
  if hours < 0 ∨ 23 < hours then ⟨.promptTime, st, []⟩
  else if minutes < 0 ∨ 59 < minutes then ⟨.promptTime, st, []⟩
  else
    match ud.deadline_date with
    | none => ⟨.endConv, st, []⟩
    | some dateMinutes =>
      if dateMinutes + hours * 60 + minutes ≤ now then ⟨.promptDate, st, []⟩
      else if falsyStr ud.assignee_id ∨ falsyStr ud.task_text then
        ⟨.endConv, st, []⟩
      else
        match ud.assignee_id, ud.task_text with
        | some assignee, some text =>
          ⟨.endConv,
           (save_task_new tg_id assignee text
              (dateMinutes + hours * 60 + minutes) st).2,
           if sendOk then [assignee] else []⟩
        | _, _ => ⟨.endConv, st, []⟩

/-- Outcome of the `task` entry handler of the creation wizard. -/
inductive TaskEntry
  | refuse
  | promptText (creatorRole creatorId : String)
  deriving Repr, DecidableEq

/-- The `task` entry handler: only a registered `"director"` or `"chief"` may
start the creation wizard; everyone else (including every `"manager"`, the
lowest role) gets a refusal message and the conversation ends. -/
def task_entry (tg_id : String) (users : List User) : TaskEntry :=
  match users.find? (fun u => u.tg_id == tg_id) with
  | none => .refuse
  | some u =>
    if u.role == "director" ∨ u.role == "chief" then .promptText u.role tg_id
    else .refuse

/-- `register_surname`: an empty registry makes the registrant the
`"director"` of department `"management"` with no superior; otherwise the
registrant becomes a `"manager"` of department `"general"` whose `chief_id`
is the first director's id (or null when no director exists). -/
def register_surname (tg_id name surname : String) (users : List User) :
    List User :=
  if users.isEmpty then
    save_user ⟨tg_id, name, surname, "director", none, some "management"⟩ users
  else
    let director := users.find? (fun u => u.role == "director")
    save_user
      ⟨tg_id, name, surname, "manager", director.map (fun d => d.tg_id),
       some "general"⟩ users

/-- A registration attempt: the data the wizard collects. -/
structure RegRequest where
  tg_id : String
  name : String
  surname : String
  deriving Repr, DecidableEq

/-- One registration as routed by `/start`: an already registered id is
greeted and the wizard never starts; otherwise the wizard runs to
`register_surname`. -/
def start_register (r : RegRequest) (users : List User) : List User :=
  if users.any (fun v => v.tg_id == r.tg_id) then users
  else register_surname r.tg_id r.name r.surname users

/-- The registry produced by a sequence of registrations against an initially
empty registry. -/
def register_all (reqs : List RegRequest) : List User :=
  reqs.foldl (fun us r => start_register r us) []

/-- The `for subordinate in direct_subordinates` loop of
`get_user_subordinates`, abstracted over the recursive call: concatenate the
recursively computed subordinate lists, propagating fuel exhaustion. -/
def subordinatesLoop (walk : String → Option (List User)) :
    List User → Option (List User)
  | [] => some []
  | s :: ss =>
    match walk s.tg_id, subordinatesLoop walk ss with
    | some r, some rs => some (r ++ rs)
    | _, _ => none

/-- `get_user_subordinates` with an explicit recursion-depth bound: collect
the direct subordinates (users whose `chief_id` equals the queried id) and
extend, in order, with each direct subordinate's own recursively computed
subordinates. The Python original recurses without any cycle guard; `none`
means the recursion is still running at the given depth, so a result of
`none` for every fuel is non-termination of the Python call. -/
def get_user_subordinatesFuel : Nat → String → List User → Option (List User)
  | 0, _, _ => none
  | fuel + 1, chiefId, users =>
    match subordinatesLoop (fun cid => get_user_subordinatesFuel fuel cid users)
        (users.filter (fun u => u.chief_id == some chiefId)) with
    | none => none
    | some rest => some (users.filter (fun u => u.chief_id == some chiefId) ++ rest)

/-- `is_user_subordinate` with an explicit recursion-depth bound: look the
user up (unknown id fails closed with `false`), read their `chief_id`
(missing or empty fails closed with `false`), succeed when it equals the
queried chief, and otherwise walk up the superior chain. The Python original
has no cycle guard, so `none` for every fuel is non-termination. -/
def is_user_subordinateFuel : Nat → String → String → List User → Option Bool
  | 0, _, _, _ => none
  | fuel + 1, user_id, chief_id, users =>
    match users.find? (fun u => u.tg_id == user_id) with
    | none => some false
    | some u =>
      match u.chief_id with
      | none => some false
      | some cc =>
        if cc == "" then some false
        else if cc == chief_id then some true
        else is_user_subordinateFuel fuel cc chief_id users

/-- `filter_old_tasks` with `max_days_old = 2`: tasks that are not done are
always kept; a done task is kept iff at most 2 whole days have passed since
its deadline (`(now - deadline).days <= 2`, Python `days` floors). -/
def filter_old_tasks (now : Int) (tasks : List Task) : List Task :=
  tasks.filter (fun t =>
    if t.status == "done" then decide ((now - t.deadline).fdiv 1440 ≤ 2)
    else true)

/-- Left-to-right filter with a fallible predicate, propagating failure: the
image of a Python list comprehension whose condition may not terminate. -/
def filterOptB {α : Type} (p : α → Option Bool) : List α → Option (List α)
  | [] => some []
  | x :: xs =>
    match p x with
    | none => none
    | some b =>
      match filterOptB p xs with
      | none => none
      | some ys => some (if b then x :: ys else ys)

/-- The task-selection logic of `show_tasks` for a registered user: after
`filter_old_tasks`, a director gets every task; a chief gets the tasks whose
`chief_id` (creator) is the chief, or — by short-circuit `or` — whose
assignee is a recursive subordinate of the chief; everyone else (manager)
gets the tasks assigned to them. The subordinate walk carries fuel; `none`
means the Python call died in unbounded recursion. -/
def show_tasks_visible (fuel : Nat) (now : Int) (user : User)
    (users : List User) (tasks : List Task) : Option (List Task) :=
  let ts := filter_old_tasks now tasks
  if user.role == "director" then some ts
  else if user.role == "chief" then
    filterOptB (fun t =>
      if t.chief_id == user.tg_id then some true
      else is_user_subordinateFuel fuel t.assignee_id user.tg_id users) ts
  else some (ts.filter (fun t => t.assignee_id == user.tg_id))

/-! ### Concrete stores used by the counterexamples and witnesses -/

/-- Director of a two-user registry. -/
def dirD : User := ⟨"d", "Dia", "Dole", "director", none, some "management"⟩

/-- Chief whose superior is the director `dirD`. -/
def chiefC : User := ⟨"c", "Carl", "Chan", "chief", some "d", some "sales"⟩

/-- A registry holding a director and a chief. -/
def usersDC : List User := [dirD, chiefC]

/-- A fresh task created by the director and assigned to the chief. -/
def taskForChief : Task := ⟨1, "d", "c", "prepare report", 100, "new"⟩

/-- A task already in status done. -/
def doneTask : Task := ⟨1, "c1", "m1", "write notes", 500, "done"⟩

/-- A store holding only `doneTask`. -/
def stDone : TaskStore := ⟨[doneTask], 2⟩

/-- A registry holding a single manager, the lowest role. -/
def usersOnlyManager : List User :=
  [⟨"100", "Mia", "Stone", "manager", some "1", some "general"⟩]

/-- A registry holding a single chief. -/
def usersOneChief : List User :=
  [⟨"7", "Ann", "Lee", "chief", some "1", some "sales"⟩]

/-- Root of the three-user chain: `userB`'s superior. -/
def userA : User := ⟨"a", "Ann", "Ames", "director", none, some "management"⟩

/-- Middle of the chain: superior `userA`. -/
def userB : User := ⟨"b", "Bob", "Birch", "chief", some "a", some "sales"⟩

/-- Leaf of the chain: superior `userB`, no subordinates. -/
def userC : User := ⟨"c", "Cal", "Cole", "manager", some "b", some "general"⟩

/-- The chain A -> B -> C of superiors. -/
def chainUsers : List User := [userA, userB, userC]

/-- First half of a two-cycle of superior links. -/
def cycUserA : User := ⟨"a", "Ann", "Ames", "chief", some "b", some "s"⟩

/-- Second half of the two-cycle. -/
def cycUserB : User := ⟨"b", "Bob", "Birch", "chief", some "a", some "s"⟩

/-- A registry whose `chief_id` links form a cycle between `"a"` and `"b"`. -/
def cycUsers : List User := [cycUserA, cycUserB]

/-! ## Theorems -/

/-- Raising the answers of the recursive walk preserves the loop's answer. -/
theorem subordinatesLoop_mono {walk walk2 : String → Option (List User)}
    (hw : ∀ cid v, walk cid = some v → walk2 cid = some v) :
    ∀ l v, subordinatesLoop walk l = some v → subordinatesLoop walk2 l = some v := by
  intro l
  induction l with
  | nil => intro v h; exact h
  | cons s ss ih =>
    intro v h
    unfold subordinatesLoop at h ⊢
    cases hw1 : walk s.tg_id with
    | none => rw [hw1] at h; simp at h
    | some r =>
      rw [hw1] at h
      cases hl : subordinatesLoop walk ss with
      | none => rw [hl] at h; simp at h
      | some rs =>
        rw [hl] at h
        rw [hw s.tg_id r hw1, ih rs hl]
        exact h

/-- More fuel never changes a subordinate walk that already finished. -/
theorem get_user_subordinatesFuel_mono :
    ∀ {fuel fuel2 : Nat}, fuel ≤ fuel2 → ∀ {cid : String} {users : List User}
      {v : List User}, get_user_subordinatesFuel fuel cid users = some v →
      get_user_subordinatesFuel fuel2 cid users = some v := by
  intro fuel
  induction fuel with
  | zero => intro fuel2 _ cid users v h; exact absurd h (by simp [get_user_subordinatesFuel])
  | succ n ih =>
    intro fuel2 hle cid users v h
    obtain ⟨m, rfl⟩ : ∃ m, fuel2 = m + 1 := ⟨fuel2 - 1, by omega⟩
    have hnm : n ≤ m := by omega
    unfold get_user_subordinatesFuel at h ⊢
    cases hl : subordinatesLoop
        (fun c => get_user_subordinatesFuel n c users)
        (users.filter (fun u => u.chief_id == some cid)) with
    | none => rw [hl] at h; simp at h
    | some rest =>
      rw [hl] at h
      rw [subordinatesLoop_mono (fun c w hw => ih hnm hw) _ rest hl]
      exact h

/-- C8: on the chain A -> B -> C (B's superior is A, C's superior is B) the
subordinate walk for A returns exactly the records of B and C, following the
superior links recursively; for C, a user with no subordinates, it returns
the empty list. `fuel` bounds the recursion depth, and any depth at least
the chain's height gives the Python call's value. -/
theorem subordinates_chain (fuel : Nat) (h : 3 ≤ fuel) :
    get_user_subordinatesFuel fuel "a" chainUsers = some [userB, userC] ∧
    get_user_subordinatesFuel fuel "c" chainUsers = some [] :=
  ⟨get_user_subordinatesFuel_mono h (by decide),
   get_user_subordinatesFuel_mono h (by decide)⟩

/-- Witness for `subordinates_chain` at the least sufficient depth. -/
theorem subordinates_chain_witness :
    get_user_subordinatesFuel 3 "a" chainUsers = some [userB, userC] ∧
    get_user_subordinatesFuel 3 "c" chainUsers = some [] :=
  subordinates_chain 3 (by decide)

/-- C5: on the registry `cycUsers`, whose superior links form the cycle
a -> b -> a, both `get_user_subordinates "a"` and
`is_user_subordinate "a" "z"` fail to finish at every recursion depth: the
unguarded Python recursion never terminates (in CPython it raises
`RecursionError`) instead of failing closed with an empty list or `false`
as the specification requires. -/
theorem subordinate_walks_diverge_on_cycle :
    (∀ fuel, get_user_subordinatesFuel fuel "a" cycUsers = none) ∧
    (∀ fuel, is_user_subordinateFuel fuel "a" "z" cycUsers = none) := by
  have keyG : ∀ n, get_user_subordinatesFuel n "a" cycUsers = none ∧
      get_user_subordinatesFuel n "b" cycUsers = none := by
    intro n
    induction n with
    | zero => exact ⟨rfl, rfl⟩
    | succ n ih =>
      constructor
      · show (match (match get_user_subordinatesFuel n "b" cycUsers,
              (some [] : Option (List User)) with
            | some r, some rs => some (r ++ rs)
            | _, _ => none) with
          | none => none
          | some rest => some ([cycUserB] ++ rest)) = none
        rw [ih.2]
      · show (match (match get_user_subordinatesFuel n "a" cycUsers,
              (some [] : Option (List User)) with
            | some r, some rs => some (r ++ rs)
            | _, _ => none) with
          | none => none
          | some rest => some ([cycUserA] ++ rest)) = none
        rw [ih.1]
  have keyI : ∀ n, is_user_subordinateFuel n "a" "z" cycUsers = none ∧
      is_user_subordinateFuel n "b" "z" cycUsers = none := by
    intro n
    induction n with
    | zero => exact ⟨rfl, rfl⟩
    | succ n ih =>
      exact ⟨by rw [show is_user_subordinateFuel (n + 1) "a" "z" cycUsers =
                is_user_subordinateFuel n "b" "z" cycUsers from rfl, ih.2],
             by rw [show is_user_subordinateFuel (n + 1) "b" "z" cycUsers =
                is_user_subordinateFuel n "a" "z" cycUsers from rfl, ih.1]⟩
  exact ⟨fun fuel => (keyG fuel).1, fun fuel => (keyI fuel).1⟩

/-- C2: `schedule_deadline_reminders` derives exactly the three candidates
deadline minus one day, deadline minus one hour and deadline plus one hour,
and arms precisely the candidates whose fire time is strictly after `now`,
skipping past ones entirely; for a deadline 3 days (4320 minutes) ahead all
three timers are armed, and for a deadline 30 minutes ahead only the
hour-after timer is armed. -/
theorem schedule_reminders_exact_future (now : Int) (chief_id assignee_id : String)
    (deadline : Int) :
    (∀ r : Reminder,
       r ∈ schedule_deadline_reminders now chief_id assignee_id deadline ↔
         r ∈ reminderCandidates chief_id assignee_id deadline ∧ now < r.time) ∧
    schedule_deadline_reminders now chief_id assignee_id (now + 4320) =
      reminderCandidates chief_id assignee_id (now + 4320) ∧
    schedule_deadline_reminders now chief_id assignee_id (now + 30) =
      [⟨now + 30 + 60, "chief", chief_id⟩] := by
  refine ⟨fun r => ?_, ?_, ?_⟩
  · simp [schedule_deadline_reminders, List.mem_filter]
  · have h1 : now < now + 4320 - 1440 := by omega
    have h2 : now < now + 4320 - 60 := by omega
    have h3 : now < now + 4320 + 60 := by omega
    simp [schedule_deadline_reminders, reminderCandidates, List.filter_cons, h1, h2, h3]
  · have h1 : ¬ now < now + 30 - 1440 := by omega
    have h2 : ¬ now < now + 30 - 60 := by omega
    have h3 : now < now + 30 + 60 := by omega
    simp [schedule_deadline_reminders, reminderCandidates, List.filter_cons, h1, h2, h3]

/-- C6: the reminder handler sends a message precisely when re-fetching the
task id from the store finds a task whose status is not done; a task that
is gone or already done makes the handler return without sending. -/
theorem reminder_fire_rechecks_store (d : JobData) (tasks : List Task) :
    (send_deadline_reminder d tasks).isSome ↔
      ∃ t, tasks.find? (fun t => toString t.id == d.task_id) = some t ∧
        t.status ≠ "done" := by
  unfold send_deadline_reminder
  cases h : tasks.find? (fun t => toString t.id == d.task_id) with
  | none => simp
  | some t =>
    by_cases hs : t.status = "done"
    · simp [hs]
    · simp [hs, apply_ite Option.isSome]

/-- C7 counterexample: the registry `usersOnlyManager` holds one user of the
lowest role, `"manager"`; when that user starts task creation, the handler
refuses and ends the conversation instead of proceeding with the user as
automatic assignee. -/
theorem manager_create_refused_cex :
    (usersOnlyManager.find? (fun u => u.tg_id == "100")).map User.role =
      some "manager" ∧
    task_entry "100" usersOnlyManager = TaskEntry.refuse := by decide

/-- C7 amended: only a registered director or chief may start the creation
wizard; a user of any other role (so every manager, the lowest role) and an
unregistered user are refused, and no automatic self-assignment happens. -/
theorem task_entry_roles (tg_id : String) (users : List User) (u : User)
    (hfind : users.find? (fun v => v.tg_id == tg_id) = some u) :
    (u.role ≠ "director" → u.role ≠ "chief" →
       task_entry tg_id users = TaskEntry.refuse) ∧
    (u.role = "director" ∨ u.role = "chief" →
       task_entry tg_id users = TaskEntry.promptText u.role tg_id) := by
  unfold task_entry
  rw [hfind]
  dsimp only
  constructor
  · intro h1 h2
    rw [if_neg]
    simp only [beq_iff_eq]
    exact fun hc => hc.elim h1 h2
  · intro h
    rw [if_pos]
    simp only [beq_iff_eq]
    exact h

/-- Witness for `task_entry_roles`: the chief of `usersOneChief` is let
through to the text prompt. -/
theorem task_entry_roles_witness :
    task_entry "7" usersOneChief = TaskEntry.promptText "chief" "7" :=
  (task_entry_roles "7" usersOneChief
      ⟨"7", "Ann", "Lee", "chief", some "1", some "sales"⟩ (by decide)).2
    (Or.inr rfl)

/-- C1: a deadline not strictly after `now` makes the deadline-time step
re-prompt the date and leave the store untouched, and every task in the
store after the step was either already there or carries a deadline
strictly greater than `now`, the validation time of its creation. -/
theorem create_rejects_past_deadline (now hours minutes : Int) (tg_id : String)
    (ud : UserData) (st : TaskStore) (sendOk : Bool) :
    (∀ dateMinutes, ud.deadline_date = some dateMinutes →
       0 ≤ hours → hours ≤ 23 → 0 ≤ minutes → minutes ≤ 59 →
       dateMinutes + hours * 60 + minutes ≤ now →
       deadline_time_handler now hours minutes tg_id ud st sendOk =
         ⟨NextState.promptDate, st, []⟩) ∧
    (∀ t, t ∈ (deadline_time_handler now hours minutes tg_id ud st sendOk).store.tasks →
       t ∈ st.tasks ∨ now < t.deadline) := by
  constructor
  · intro dm hdate h0 h23 hm0 hm59 hle
    unfold deadline_time_handler
    rw [if_neg (by omega), if_neg (by omega), hdate]
    dsimp only
    rw [if_pos hle]
  · intro t ht
    unfold deadline_time_handler at ht
    split at ht
    · exact Or.inl ht
    split at ht
    · exact Or.inl ht
    split at ht
    · exact Or.inl ht
    rename_i dm
    split at ht
    · exact Or.inl ht
    split at ht
    · exact Or.inl ht
    split at ht
    · rename_i hnle _ _ assignee text _
      dsimp only [save_task_new] at ht
      rw [List.mem_append] at ht
      rcases ht with ht | ht
      · exact Or.inl ht
      · right
        rw [List.mem_singleton] at ht
        subst ht
        dsimp only
        omega
    · exact Or.inl ht

/-- C9: a failed delivery of the new-task message or of the completion
notification does not roll the state change back: the store after
`deadline_time_handler` and after `mark_done` is the same whether the send
succeeded or failed. -/
theorem delivery_failure_no_rollback (now hours minutes : Int) (tg_id : String)
    (ud : UserData) (st : TaskStore) (task_id : String) :
    (deadline_time_handler now hours minutes tg_id ud st true).store =
      (deadline_time_handler now hours minutes tg_id ud st false).store ∧
    (mark_done task_id st true).store = (mark_done task_id st false).store := by
  constructor
  · unfold deadline_time_handler
    split
    · rfl
    split
    · rfl
    split
    · rfl
    split
    · rfl
    split
    · rfl
    split
    · rfl
    · rfl
  · unfold mark_done
    cases st.tasks.find? (fun t => toString t.id == task_id) <;> rfl

/-- Replacing, by id, the task that `find?` returns makes `find?` return the
replacement: the earlier entries fail the id test before and after. -/
theorem find_map_replace (tid : String) (t tnew : Task) (hid : tnew.id = t.id) :
    ∀ l : List Task, l.find? (fun u => toString u.id == tid) = some t →
      (l.map (fun u => if u.id == tnew.id then tnew else u)).find?
        (fun u => toString u.id == tid) = some tnew := by
  intro l
  induction l with
  | nil => intro h; simp at h
  | cons a as ih =>
    intro h
    simp only [List.find?_cons] at h
    simp only [List.map_cons, List.find?_cons]
    cases hpa : (toString a.id == tid) with
    | true =>
      simp only [hpa] at h
      injection h with h
      subst h
      rw [if_pos (show (a.id == tnew.id) = true by simp [hid])]
      have houter : (toString tnew.id == tid) = true := by rw [hid]; exact hpa
      simp only [houter]
    | false =>
      simp only [hpa] at h
      have hpt0 := List.find?_some h
      have hpt : (toString t.id == tid) = true := hpt0
      have hne : (a.id == tnew.id) = false := by
        simp only [beq_eq_false_iff_ne, ne_eq]
        intro he
        rw [he, hid] at hpa
        rw [hpt] at hpa
        simp at hpa
      rw [if_neg (by simp [hne])]
      simp only [hpa]
      exact ih h

/-- Replacing a task by id twice is the same as replacing it once. -/
theorem map_replace_idem (tnew : Task) (l : List Task) :
    (l.map (fun u => if u.id == tnew.id then tnew else u)).map
      (fun u => if u.id == tnew.id then tnew else u) =
    l.map (fun u => if u.id == tnew.id then tnew else u) := by
  rw [List.map_map]
  have hff : ((fun u : Task => if u.id == tnew.id then tnew else u) ∘
      (fun u : Task => if u.id == tnew.id then tnew else u)) =
      (fun u : Task => if u.id == tnew.id then tnew else u) := by
    funext u
    by_cases h : (u.id == tnew.id) = true
    · simp [Function.comp, h]
    · simp [Function.comp, h]
  rw [hff]

/-- Replacing a task whose id occurs nowhere in the list changes nothing. -/
theorem map_replace_of_not_mem_id (t : Task) :
    ∀ l : List Task, t.id ∉ l.map Task.id →
      l.map (fun u => if u.id == t.id then t else u) = l := by
  intro l
  induction l with
  | nil => intro _; rfl
  | cons a as ih =>
    intro h
    rw [List.map_cons, List.mem_cons] at h
    push_neg at h
    rw [List.map_cons, if_neg, ih h.2]
    simp only [beq_iff_eq]
    exact fun he => h.1 (he.symm ▸ rfl)

/-- When ids are unique, replacing a present task by itself changes nothing. -/
theorem map_replace_self (t : Task) :
    ∀ l : List Task, (l.map Task.id).Nodup → t ∈ l →
      l.map (fun u => if u.id == t.id then t else u) = l := by
  intro l
  induction l with
  | nil => intro _ hmem; exact absurd hmem (List.not_mem_nil t)
  | cons a as ih =>
    intro hnd hmem
    rw [List.map_cons, List.nodup_cons] at hnd
    rcases List.mem_cons.mp hmem with rfl | hmem2
    · rw [List.map_cons, if_pos (by simp)]
      rw [map_replace_of_not_mem_id t as hnd.1]
    · have hne : (a.id == t.id) = false := by
        simp only [beq_eq_false_iff_ne, ne_eq]
        intro he
        exact hnd.1 (he ▸ List.mem_map_of_mem Task.id hmem2)
      rw [List.map_cons, hne]
      simp only [Bool.false_eq_true, if_false]
      rw [ih hnd.2 hmem2]

/-- Saving the same updated task twice is the same as saving it once. -/
theorem save_task_update_idem (t : Task) (st : TaskStore) :
    save_task_update t (save_task_update t st) = save_task_update t st := by
  unfold save_task_update
  dsimp only
  rw [map_replace_idem]

/-- C4 counterexample: the store `stDone` holds only the already-done task
`doneTask` (id 1, creator `"c1"`); invoking `mark_done` on it leaves the
store unchanged but delivers the completion notification to the creator
again, so re-completion is not notification-free. -/
theorem mark_done_duplicate_notification_cex :
    (mark_done "1" stDone true).store = stDone ∧
    (mark_done "1" stDone true).notifs = ["c1"] := by decide

/-- C4 amended: `mark_done` on an unknown id is a complete no-op with no
notification; it is idempotent on the store (a second invocation with the
same id changes nothing further); and on a task already in status done it
leaves the store unchanged (given the ids are unique, as the serial primary
key guarantees) but the completion notification to the creator is sent
again rather than suppressed. -/
theorem mark_done_idempotent_store (task_id : String) (st : TaskStore)
    (sendOk : Bool) :
    (st.tasks.find? (fun t => toString t.id == task_id) = none →
       mark_done task_id st sendOk = ⟨st, [], "task not found"⟩) ∧
    ((mark_done task_id (mark_done task_id st sendOk).store sendOk).store =
       (mark_done task_id st sendOk).store) ∧
    (∀ t, st.tasks.find? (fun t => toString t.id == task_id) = some t →
       t.status = "done" →
       ((st.tasks.map Task.id).Nodup → (mark_done task_id st sendOk).store = st) ∧
       (mark_done task_id st sendOk).notifs =
         (if sendOk then [t.chief_id] else [])) := by
  refine ⟨?_, ?_, ?_⟩
  · intro h
    unfold mark_done
    rw [h]
  · cases h : st.tasks.find? (fun u => toString u.id == task_id) with
    | none =>
      have h1 : mark_done task_id st sendOk = ⟨st, [], "task not found"⟩ := by
        unfold mark_done; rw [h]
      rw [h1, h1]
    | some t =>
      have h1 : mark_done task_id st sendOk =
          ⟨save_task_update { t with status := "done" } st,
           if sendOk then [({ t with status := "done" } : Task).chief_id] else [],
           "task done"⟩ := by
        unfold mark_done; rw [h]
      have hfind2 : (save_task_update { t with status := "done" } st).tasks.find?
          (fun u => toString u.id == task_id) = some { t with status := "done" } := by
        unfold save_task_update
        exact find_map_replace task_id t { t with status := "done" } rfl st.tasks h
      have h2 : mark_done task_id (save_task_update { t with status := "done" } st)
          sendOk =
          ⟨save_task_update { t with status := "done" }
             (save_task_update { t with status := "done" } st),
           if sendOk then [({ t with status := "done" } : Task).chief_id] else [],
           "task done"⟩ := by
        unfold mark_done
        rw [hfind2]
      rw [h1]
      dsimp only
      rw [h2]
      dsimp only
      exact save_task_update_idem _ _
  · intro t hfind hdone
    have h1 : mark_done task_id st sendOk =
        ⟨save_task_update { t with status := "done" } st,
         if sendOk then [({ t with status := "done" } : Task).chief_id] else [],
         "task done"⟩ := by
      unfold mark_done; rw [hfind]
    have ht : ({ t with status := "done" } : Task) = t := by
      cases t
      simp only at hdone
      rw [hdone]
    constructor
    · intro hnd
      rw [h1]
      dsimp only
      rw [ht]
      unfold save_task_update
      rw [map_replace_self t st.tasks hnd (List.mem_of_find?_eq_some hfind)]
    · rw [h1]

/-- Membership in a successful fallible filter: exactly the elements of the
input on which the predicate returned `some true`. -/
theorem filterOptB_mem {α : Type} {p : α → Option Bool} :
    ∀ {l ys : List α}, filterOptB p l = some ys →
      ∀ x, x ∈ ys ↔ x ∈ l ∧ p x = some true := by
  intro l
  induction l with
  | nil =>
    intro ys h x
    injection h with h
    subst h
    simp
  | cons a as ih =>
    intro ys h x
    unfold filterOptB at h
    cases hp : p a with
    | none => rw [hp] at h; simp at h
    | some b =>
      rw [hp] at h
      cases hrest : filterOptB p as with
      | none => rw [hrest] at h; simp at h
      | some zs =>
        rw [hrest] at h
        injection h with h
        subst h
        cases b with
        | true =>
          simp only [if_true, List.mem_cons]
          constructor
          · rintro (rfl | hx)
            · exact ⟨Or.inl rfl, hp⟩
            · have := (ih hrest x).mp hx
              exact ⟨Or.inr this.1, this.2⟩
          · rintro ⟨rfl | hx, hpx⟩
            · exact Or.inl rfl
            · exact Or.inr ((ih hrest x).mpr ⟨hx, hpx⟩)
        | false =>
          simp only [if_false, List.mem_cons]
          constructor
          · intro hx
            have := (ih hrest x).mp hx
            exact ⟨Or.inr this.1, this.2⟩
          · rintro ⟨rfl | hx, hpx⟩
            · rw [hp] at hpx
              simp at hpx
            · exact (ih hrest x).mpr ⟨hx, hpx⟩

/-- C3 counterexample: in the registry `usersDC`, the chief `chiefC` is the
assignee of `taskForChief` (which is fresh, so not age-filtered) but not its
creator; contrary to the claim that a task is always visible to its
assignee, `show_tasks` shows the chief an empty list. -/
theorem chief_assignee_not_visible_cex :
    taskForChief.assignee_id = chiefC.tg_id ∧
    taskForChief.status = "new" ∧
    show_tasks_visible 10 0 chiefC usersDC [taskForChief] = some [] := by decide

/-- C3 amended: after the age filter, a director sees every task; a chief
sees exactly the tasks they created plus those whose assignee is a
recursive subordinate of the chief (department plays no role, and a chief
who is merely the assignee does not see the task); every other role
(manager) sees exactly the tasks assigned to them (a manager who is merely
the creator does not see the task). -/
theorem show_tasks_visibility_rules (fuel : Nat) (now : Int) (user : User)
    (users : List User) (tasks vs : List Task)
    (h : show_tasks_visible fuel now user users tasks = some vs) (t : Task) :
    (user.role = "director" → (t ∈ vs ↔ t ∈ filter_old_tasks now tasks)) ∧
    (user.role = "chief" →
       (t ∈ vs ↔ t ∈ filter_old_tasks now tasks ∧
         (t.chief_id = user.tg_id ∨
          is_user_subordinateFuel fuel t.assignee_id user.tg_id users =
            some true))) ∧
    (user.role ≠ "director" → user.role ≠ "chief" →
       (t ∈ vs ↔ t ∈ filter_old_tasks now tasks ∧
          t.assignee_id = user.tg_id)) := by
  unfold show_tasks_visible at h
  refine ⟨?_, ?_, ?_⟩
  · intro hrole
    rw [if_pos (by simp [hrole])] at h
    injection h with h
    subst h
    rfl
  · intro hrole
    have hnd : ¬(user.role == "director") = true := by
      simp [hrole]
    rw [if_neg hnd, if_pos (by simp [hrole])] at h
    have hm := filterOptB_mem h t
    rw [hm]
    constructor
    · rintro ⟨hin, hp⟩
      refine ⟨hin, ?_⟩
      by_cases hc : (t.chief_id == user.tg_id) = true
      · exact Or.inl (by simpa using hc)
      · rw [if_neg hc] at hp
        exact Or.inr hp
    · rintro ⟨hin, hor⟩
      refine ⟨hin, ?_⟩
      by_cases hc : (t.chief_id == user.tg_id) = true
      · rw [if_pos hc]
      · rw [if_neg hc]
        rcases hor with hor | hor
        · exact absurd (by simp [hor] : (t.chief_id == user.tg_id) = true) hc
        · exact hor
  · intro hrd hrc
    rw [if_neg (by simp [hrd]), if_neg (by simp [hrc])] at h
    injection h with h
    subst h
    simp [List.mem_filter]

/-- Witness for `show_tasks_visibility_rules`: the director of `usersDC`
sees the fresh task. -/
theorem show_tasks_visibility_rules_witness :
    taskForChief ∈ [taskForChief] ↔
      taskForChief ∈ filter_old_tasks 0 [taskForChief] :=
  (show_tasks_visibility_rules 1 0 dirD usersDC [taskForChief] [taskForChief]
      (by decide) taskForChief).1 rfl

/-- The shape every registry reachable by registrations alone has: empty, or
one director created first (department management, no superior) followed by
managers all of whose superior links point at that director. -/
def RegistryInvariant : List User → Prop
  | [] => True
  | h :: t => h.role = "director" ∧ h.chief_id = none ∧
      h.department = some "management" ∧
      ∀ u ∈ t, u.role = "manager" ∧ u.chief_id = some h.tg_id

/-- C10: any sequence of registrations against an initially empty registry
produces a registry that is empty or consists of one director — the first
registrant, stored with department management and no superior — followed
only by managers whose `chief_id` is that director's id; in particular at
most one user with role director is ever created by registration. -/
theorem registration_order_invariant (reqs : List RegRequest) :
    RegistryInvariant (register_all reqs) ∧
    (register_all reqs).countP (fun u => u.role == "director") ≤ 1 := by
  have step : ∀ (us : List User) (r : RegRequest), RegistryInvariant us →
      RegistryInvariant (start_register r us) := by
    intro us r hinv
    unfold start_register
    split
    · exact hinv
    · rename_i hany
      unfold register_surname
      cases us with
      | nil =>
        exact ⟨rfl, rfl, rfl, fun u hu => absurd hu (List.not_mem_nil u)⟩
      | cons hd tl =>
        rw [if_neg (by simp)]
        obtain ⟨hrole, hchief, hdept, htail⟩ := hinv
        have hfind : (hd :: tl).find? (fun u => u.role == "director") = some hd := by
          rw [List.find?_cons]
          simp [hrole]
        rw [hfind]
        unfold save_user
        rw [if_neg (by simpa using hany)]
        refine ⟨hrole, hchief, hdept, ?_⟩
        intro u hu
        rcases List.mem_append.mp hu with hu | hu
        · exact htail u hu
        · rw [List.mem_singleton] at hu
          subst hu
          exact ⟨rfl, rfl⟩
  have main : ∀ (rs : List RegRequest) (us : List User), RegistryInvariant us →
      RegistryInvariant (rs.foldl (fun a r => start_register r a) us) := by
    intro rs
    induction rs with
    | nil => intro us h; exact h
    | cons r rs2 ih => intro us h; exact ih _ (step us r h)
  have hinv : RegistryInvariant (register_all reqs) := main reqs [] trivial
  refine ⟨hinv, ?_⟩
  cases hreg : register_all reqs with
  | nil => simp
  | cons hd tl =>
    rw [hreg] at hinv
    obtain ⟨hrole, _, _, htail⟩ := hinv
    have htl : tl.countP (fun u => u.role == "director") = 0 := by
      rw [List.countP_eq_zero]
      intro u hu
      have := (htail u hu).1
      simp [this]
    simp [List.countP_cons, htl, hrole]

end TaskBot
